import Mathlib

/-!
Verification of the Claude-Matrix core: a shallow embedding in Lean 4 of the
semantic memory store (`src/tools/store.ts`, reproduced inside
`src/indexer/diff.ts` in the provided sources), the incremental indexer diff
(`src/indexer/diff.ts`), the merge engine (`src/cli/merge.ts`) and the
TypeScript symbol/import extractor, together with proofs of the spec's
claims about them.

Conventions of the embedding:
* JavaScript numbers are modelled as `ℚ` (scores, similarities) or as
  `Nat`/`Int` (counters, lengths, mtimes); `Math.floor` on non-negative
  quantities is `Nat` division, `Math.round` is `jsRound`.
* The SQLite `solutions` table is a `List Solution`; `SELECT ... WHERE id = ?
  ... .get` is `dbGet` (first matching row), `INSERT` appends a row,
  `UPDATE ... WHERE id = ?` maps over rows, `DELETE ... WHERE id = ?`
  filters rows.
* The embedding model (`getEmbedding`) and the cosine-similarity kernel
  live outside the provided sources; operations that use them are
  parametrised by functions `emb : String → List ℚ` and
  `sim : List ℚ → List ℚ → ℚ`.
* Exceptions (`throw new Error`) are modelled with `Except String`.
-/

/-- The `scope` column: `'global' | 'stack' | 'repo'`. -/
inductive Scope where
  | global
  | stack
  | repo
deriving Repr, DecidableEq

/-- A row of the `solutions` table, after JSON columns are decoded.
Fields follow the schema used by `matrixStore`'s INSERT and by `merge.ts`'s
SELECT (`id, problem, solution, scope, score, uses, successes,
partial_successes, failures, tags, problem_embedding, ...`).  The
`problem_embedding` BLOB is modelled as `Option (List ℚ)`: `none` stands for
a blob that `bufferToEmbedding` cannot decode. -/
structure Solution where
  id : String
  repo_id : Option String := none
  problem : String := ""
  problem_embedding : Option (List ℚ) := none
  solution : String := ""
  scope : Scope := .global
  context : List String := []
  tags : List String := []
  score : ℚ := mkRat 1 2
  category : Option String := none
  complexity : Nat := 1
  prerequisites : List String := []
  anti_patterns : List String := []
  code_blocks : List String := []
  related_solutions : List String := []
  supersedes : Option String := none
  uses : Nat := 0
  successes : Nat := 0
  partialSuccesses : Nat := 0
  failures : Nat := 0
deriving Repr, DecidableEq

/-- `db.query('SELECT ... FROM solutions WHERE id = ?').get(id)`:
the first row whose `id` column matches. -/
def dbGet (db : List Solution) (id : String) : Option Solution :=
  db.find? fun r => r.id == id

/-- The `StoreInput` interface of `matrixStore`.  `CodeBlock` values are only
ever counted or serialised, so they are modelled as opaque strings. -/
structure StoreInput where
  problem : String
  solution : String
  scope : Scope
  tags : Option (List String) := none
  filesAffected : Option (List String) := none
  category : Option String := none
  complexity : Option Nat := none
  prerequisites : Option (List String) := none
  antiPatterns : Option (List String) := none
  codeBlocks : Option (List String) := none
  relatedSolutions : Option (List String) := none
  supersedes : Option String := none
deriving Repr, DecidableEq

/-- The `status` field of `StoreResult`. -/
inductive StoreStatus where
  | stored
  | duplicate
  | superseded
deriving Repr, DecidableEq

/-- The `StoreResult` interface of `matrixStore`. -/
structure StoreResult where
  id : String
  status : StoreStatus
  problem : String
  scope : Scope
  tags : List String
  similarity : Option ℚ := none
  category : Option String := none
  complexity : Option Nat := none
  supersededId : Option String := none
deriving Repr, DecidableEq

/-- `calculateComplexity` from `store.ts`: base 1, `+ min(4, floor(|solution|/500))`,
`+ min(2, #codeBlocks)` when `codeBlocks?.length` is truthy, `+ min(2, #prerequisites)`
when truthy, `+ min(2, floor(#filesAffected/2))` when truthy, clamped by
`Math.min(10, Math.max(1, score))`. -/
def calculateComplexity (input : StoreInput) : Nat :=
  let score := 1 + min 4 (input.solution.length / 500)
  let score := score +
    match input.codeBlocks with
    | some bs => if 0 < bs.length then min 2 bs.length else 0
    | none => 0
  let score := score +
    match input.prerequisites with
    | some ps => if 0 < ps.length then min 2 ps.length else 0
    | none => 0
  let score := score +
    match input.filesAffected with
    | some fs => if 0 < fs.length then min 2 (fs.length / 2) else 0
    | none => 0
  min 10 (max 1 score)

/-- One entry of the result of `searchSimilarSolutions`. -/
structure SimilarHit where
  id : String
  similarity : ℚ
deriving Repr, DecidableEq

/-- Modelled from the spec: `searchSimilarSolutions` is implemented in
`src/db/client.ts`, which is not part of the provided sources; the spec says
the store must "search existing solutions for similarity ≥ 0.9" and return
the best match.  Modelled as: compute the similarity of the query embedding
to every stored row that has a decodable embedding, keep the rows whose
similarity is at least `minScore`, order them by descending similarity, and
return the first `limit` of them.  The similarity kernel itself is the
parameter `sim`. -/
def searchSimilarSolutions (sim : List ℚ → List ℚ → ℚ) (query : List ℚ)
    (limit : Nat) (minScore : ℚ) (db : List Solution) : List SimilarHit :=
  ((((db.filterMap fun r =>
      r.problem_embedding.map fun e => SimilarHit.mk r.id (sim query e)).filter
        fun h => minScore ≤ h.similarity).mergeSort
          fun a b => b.similarity ≤ a.similarity).take limit)

/-- JavaScript `Math.round`: round half towards positive infinity. -/
def jsRound (q : ℚ) : Int := ⌊q + mkRat 1 2⌋

/-- `Math.round(x * 1000) / 1000`, the 3-decimal rounding applied to the
reported duplicate similarity. -/
def jsRound3 (q : ℚ) : ℚ := mkRat (jsRound (q * 1000)) 1000

/-- `p.slice(0, 100) + (p.length > 100 ? '...' : '')`. -/
def truncate100 (s : String) : String :=
  s.take 100 ++ (if 100 < s.length then "..." else "")

/-- JavaScript truthiness of a `string | undefined` value: `undefined` and
the empty string are falsy. -/
def jsTruthyStr : Option String → Bool
  | some s => !(s == "")
  | none => false

/-- The insertion tail of `matrixStore` (everything after the duplicate
check in the source): derive `complexity` when omitted, validate the
`supersedes` target when it is truthy (throwing `Cannot supersede
non-existent solution` when it does not resolve — `if (input.supersedes)`
skips the check for `undefined` and for the falsy empty string), INSERT
the new row with `score = 0.5`, zeroed counters and
`input.supersedes || null`, and report status `superseded` or `stored`
per the same truthiness. -/
def matrixStoreInsert (embedding : List ℚ) (newId : String) (repoId : Option String)
    (db : List Solution) (input : StoreInput) :
    Except String (StoreResult × List Solution) :=
  let complexity := input.complexity.getD (calculateComplexity input)
  let newRow : Solution :=
    { id := newId
      repo_id := repoId
      problem := input.problem
      problem_embedding := some embedding
      solution := input.solution
      scope := input.scope
      context := input.filesAffected.getD []
      tags := input.tags.getD []
      score := mkRat 1 2
      category := input.category
      complexity := complexity
      prerequisites := input.prerequisites.getD []
      anti_patterns := input.antiPatterns.getD []
      code_blocks := input.codeBlocks.getD []
      related_solutions := input.relatedSolutions.getD []
      supersedes := if jsTruthyStr input.supersedes then input.supersedes else none
      uses := 0
      successes := 0
      partialSuccesses := 0
      failures := 0 }
  let res : StoreResult :=
    { id := newId
      status := if jsTruthyStr input.supersedes then .superseded else .stored
      problem := truncate100 input.problem
      scope := input.scope
      tags := input.tags.getD []
      category := input.category
      complexity := some complexity
      supersededId := input.supersedes }
  match input.supersedes with
  | some sid =>
      if sid == "" then .ok (res, db ++ [newRow])
      else if (dbGet db sid).isSome then .ok (res, db ++ [newRow])
      else .error ("Cannot supersede non-existent solution: " ++ sid)
  | none => .ok (res, db ++ [newRow])

/-- `matrixStore` from `store.ts`.  External collaborators are parameters:
`sim`/`emb` stand for the cosine kernel and the local embedding model,
`newId` for the generated `sol_` + random id, `repoId` for
`getOrCreateRepo(fingerprintRepo())`.  The function first runs
`searchSimilarSolutions(embedding, 1, 0.9)`; when a hit is returned and its
id still resolves, it reports status `duplicate` (with the existing row's
id, its truncated problem text and the similarity rounded to 3 decimals)
without inserting; otherwise it falls through to the insertion tail. -/
def matrixStore (sim : List ℚ → List ℚ → ℚ) (emb : String → List ℚ)
    (newId : String) (repoId : Option String) (db : List Solution)
    (input : StoreInput) : Except String (StoreResult × List Solution) :=
  let embedding := emb input.problem
  let duplicates := searchSimilarSolutions sim embedding 1 (mkRat 9 10) db
  match duplicates with
  | hit :: _ =>
      match dbGet db hit.id with
      | some existing =>
          .ok ({ id := existing.id
                 status := .duplicate
                 problem := truncate100 existing.problem
                 scope := input.scope
                 tags := input.tags.getD []
                 similarity := some (jsRound3 hit.similarity)
                 category := existing.category }, db)
      | none => matrixStoreInsert embedding newId repoId db input
  | [] => matrixStoreInsert embedding newId repoId db input

/-- A file found by the repository scanner (`ScannedFile` in
`src/indexer/types.ts`): relative path, absolute path, and
`Math.floor(stats.mtimeMs)`. -/
structure ScannedFile where
  path : String
  absolutePath : String := ""
  mtime : Int
deriving Repr, DecidableEq

/-- A row of the `repo_files` table as read by the indexer
(`RepoFileRow`): per the schema, `repo_id + path` key it and it carries the
`mtime` of the last successful parse and the detected `language`. -/
structure RepoFileRow where
  mtime : Int
  language : String := ""
deriving Repr, DecidableEq

/-- `Map<string, RepoFileRow>.get`: JavaScript maps have unique keys; the
map is modelled as its entry list in insertion order. -/
def mapGet (entries : List (String × RepoFileRow)) (key : String) : Option RepoFileRow :=
  (entries.find? fun kv => kv.1 == key).map fun kv => kv.2

/-- The `FileDiff` result of `computeDiff`. -/
structure FileDiff where
  added : List ScannedFile
  modified : List ScannedFile
  deleted : List String
deriving Repr, DecidableEq

/-- `computeDiff` from `src/indexer/diff.ts`: one pass over the scanned
files pushing to `added` (no indexed row), `modified`
(`file.mtime > indexed.mtime`) or neither, while recording every scanned
path in `seenPaths`; then every indexed path not in `seenPaths` is
`deleted`. -/
def computeDiff (scannedFiles : List ScannedFile)
    (indexedFiles : List (String × RepoFileRow)) : FileDiff :=
  let step := fun (acc : List ScannedFile × List ScannedFile × List String)
      (file : ScannedFile) =>
    match mapGet indexedFiles file.path with
    | none => (acc.1 ++ [file], acc.2.1, acc.2.2 ++ [file.path])
    | some indexed =>
        if indexed.mtime < file.mtime then
          (acc.1, acc.2.1 ++ [file], acc.2.2 ++ [file.path])
        else
          (acc.1, acc.2.1, acc.2.2 ++ [file.path])
  let r := scannedFiles.foldl step ([], [], [])
  { added := r.1
    modified := r.2.1
    deleted := (indexedFiles.filter fun kv => !(r.2.2.contains kv.1)).map fun kv => kv.1 }

/-- A row of the `usage_log` table as inserted by `executeMerge`. -/
structure UsageLogEntry where
  solution_id : String
  outcome : String
  notes : String
deriving Repr, DecidableEq

/-- The state touched by `executeMerge`: the `solutions` table and the
`usage_log` audit table. -/
structure MergeDb where
  solutions : List Solution
  usage_log : List UsageLogEntry
deriving Repr, DecidableEq

/-- `[...new Set([...a, ...b])]`: deduplication keeping the first
occurrence of each element, in insertion order. -/
def jsSetDedup (l : List String) : List String :=
  l.foldl (fun acc x => if acc.contains x then acc else acc ++ [x]) []

/-- `executeMerge(keep, remove)` from `src/cli/merge.ts`: sum the four
counters of the two in-memory rows, union their tag sets, UPDATE the row
with `keep.id` to the combined values, INSERT a `usage_log` entry noting
the merge, then DELETE the row with `remove.id`.  The function performs no
existence check on either id. -/
def executeMerge (db : MergeDb) (keep remove : Solution) : MergeDb :=
  let newUses := keep.uses + remove.uses
  let newSuccesses := keep.successes + remove.successes
  let newPartial := keep.partialSuccesses + remove.partialSuccesses
  let newFailures := keep.failures + remove.failures
  let combinedTags := jsSetDedup (keep.tags ++ remove.tags)
  let updated := db.solutions.map fun r =>
    if r.id == keep.id then
      { r with
        uses := newUses
        successes := newSuccesses
        partialSuccesses := newPartial
        failures := newFailures
        tags := combinedTags }
    else r
  let logged := db.usage_log ++
    [{ solution_id := keep.id
       outcome := "success"
       notes := "Merged from " ++ remove.id ++ ": +" ++ toString remove.uses ++ " uses" }]
  { solutions := updated.filter fun r => !(r.id == remove.id)
    usage_log := logged }

/-- Modelled from the spec: `EMBEDDING_DIM` is exported by
`src/embeddings/local.ts`, which is not part of the provided sources; the
spec fixes the embedding length at D = 384. -/
def EMBEDDING_DIM : Nat := 384

/-- A candidate pair produced by the merge scan. -/
structure MergeCandidate where
  a : Solution
  b : Solution
  similarity : ℚ
deriving Repr, DecidableEq

/-- The pairs `(solutions[i], solutions[j])` with `i < j`, in the order the
nested loop of `merge` visits them. -/
def allPairs {α : Type} : List α → List (α × α)
  | [] => []
  | x :: xs => (xs.map fun y => (x, y)) ++ allPairs xs

/-- The candidate scan inside `merge` in `src/cli/merge.ts`: for every pair
`i < j`, decode both embedding blobs (a decode failure is caught and the
pair skipped), skip the pair when either length differs from
`EMBEDDING_DIM`, compute the similarity, keep the pair when it reaches the
threshold; finally sort the kept pairs by descending similarity.  The
cosine kernel lives in the db layer outside the provided sources and is
the parameter `sim`. -/
def findCandidates (sim : List ℚ → List ℚ → ℚ) (solutions : List Solution)
    (threshold : ℚ) : List MergeCandidate :=
  let candidates := (allPairs solutions).filterMap fun p =>
    match p.1.problem_embedding, p.2.problem_embedding with
    | some embA, some embB =>
        if embA.length ≠ EMBEDDING_DIM ∨ embB.length ≠ EMBEDDING_DIM then none
        else
          let similarity := sim embA embB
          if threshold ≤ similarity then some ⟨p.1, p.2, similarity⟩ else none
    | _, _ => none
  candidates.mergeSort fun a b => b.similarity ≤ a.similarity

/-- The symbol kinds emitted by the TypeScript extractor
(`'function' | 'class' | 'interface' | 'type' | 'enum' | 'const' |
'variable' | 'method' | 'property'`); several are Lean keywords, hence the
`Kind` suffix. -/
inductive SymbolKind where
  | functionKind
  | classKind
  | interfaceKind
  | typeKind
  | enumKind
  | constKind
  | variableKind
  | methodKind
  | propertyKind
deriving Repr, DecidableEq

/-- `ExtractedSymbol` from `src/indexer/types.ts` as populated by the
handlers; `handlePropertyDeclaration` omits `endLine`, hence the option. -/
structure ExtractedSymbol where
  name : String
  kind : SymbolKind
  line : Nat
  column : Nat
  endLine : Option Nat := none
  exported : Bool
  isDefault : Bool
  scope : Option String := none
  signature : Option String := none
deriving Repr, DecidableEq

/-- `ExtractedImport` as populated by `handleImportDeclaration`. -/
structure ExtractedImport where
  importedName : String
  localName : Option String := none
  sourcePath : String
  isDefault : Bool
  isNamespace : Bool
  isType : Bool
  line : Nat
deriving Repr, DecidableEq

/-- One declarator of a variable statement, with the fields the handler
reads: whether `declaration.name` is an identifier, the text extracted for
it, its location, and whether its initializer is an arrow function or
function expression (in which case `getFunctionSignature` yields
`fnSignature`). -/
structure VarDecl where
  nameIsIdentifier : Bool := true
  name : String
  line : Nat := 0
  column : Nat := 0
  endLine : Nat := 0
  initIsFunction : Bool := false
  fnSignature : String := ""
deriving Repr, DecidableEq

/-- One element of a named-import list: `import { name }` or
`import { propertyName as name }`, possibly `type`-only. -/
structure ImportElem where
  name : String
  propertyName : Option String := none
  isTypeOnly : Bool := false
deriving Repr, DecidableEq

/-- `importClause.namedBindings`: a namespace import or a named-import
list. -/
inductive NamedBindings where
  | namespaceImport (name : String)
  | namedImports (elems : List ImportElem)
deriving Repr, DecidableEq

/-- `node.importClause`: optional default name, optional named bindings,
and the clause-level `isTypeOnly` flag. -/
structure ImportClauseData where
  isTypeOnly : Bool := false
  defaultName : Option String := none
  namedBindings : Option NamedBindings := none
deriving Repr, DecidableEq

/-- The fields of an `ImportDeclaration` node that
`handleImportDeclaration` reads.  `clause = none` models a side-effect
import. -/
structure ImportDeclData where
  sourceIsStringLiteral : Bool := true
  sourcePath : String := ""
  clause : Option ImportClauseData := none
  line : Nat := 0
deriving Repr, DecidableEq

/-- The syntactic information a visited TypeScript AST node exposes to the
dispatch in `visit`: one constructor per `ts.isX(node)` branch, carrying
exactly the fields the corresponding handler reads (name and whether it is
an identifier, `export`/`default` modifiers, locations, signature texts).
`otherNode` covers every node kind the dispatch ignores. -/
inductive TsNodeData where
  | functionDecl (name : Option String) (exportMod isDefaultMod : Bool)
      (line column endLine : Nat) (signature : String)
  | classDecl (name : Option String) (exportMod isDefaultMod : Bool)
      (line column endLine : Nat)
  | interfaceDecl (name : String) (exportMod : Bool) (line column endLine : Nat)
  | typeAliasDecl (name : String) (exportMod : Bool) (line column endLine : Nat)
      (typeText : String)
  | enumDecl (name : String) (exportMod : Bool) (line column endLine : Nat)
  | variableStmt (exportMod isConst : Bool) (decls : List VarDecl)
  | methodDecl (nameIsIdentifier : Bool) (name : String)
      (line column endLine : Nat) (signature : String)
  | propertyDecl (nameIsIdentifier : Bool) (name : String) (line column : Nat)
      (typeText : Option String)
  | importDecl (d : ImportDeclData)
  | exportDecl
  | exportAssign
  | otherNode
deriving Repr, DecidableEq

/-- `handleFunctionDeclaration`: skip anonymous functions, else emit a
`function` symbol with the node's modifiers and signature. -/
def handleFunctionDeclaration (name : Option String) (exportMod isDefaultMod : Bool)
    (line column endLine : Nat) (signature : String) (scope : Option String) :
    List ExtractedSymbol :=
  match name with
  | none => []
  | some n =>
      [{ name := n, kind := .functionKind, line := line, column := column
         endLine := some endLine, exported := exportMod, isDefault := isDefaultMod
         scope := scope, signature := some signature }]

/-- `handleClassDeclaration`: skip anonymous classes, else emit a `class`
symbol with the node's modifiers. -/
def handleClassDeclaration (name : Option String) (exportMod isDefaultMod : Bool)
    (line column endLine : Nat) (scope : Option String) : List ExtractedSymbol :=
  match name with
  | none => []
  | some n =>
      [{ name := n, kind := .classKind, line := line, column := column
         endLine := some endLine, exported := exportMod, isDefault := isDefaultMod
         scope := scope }]

/-- `handleInterfaceDeclaration`: emit an `interface` symbol,
`isDefault = false`. -/
def handleInterfaceDeclaration (name : String) (exportMod : Bool)
    (line column endLine : Nat) (scope : Option String) : List ExtractedSymbol :=
  [{ name := name, kind := .interfaceKind, line := line, column := column
     endLine := some endLine, exported := exportMod, isDefault := false
     scope := scope }]

/-- `handleTypeAliasDeclaration`: emit a `type` symbol whose signature is
the aliased type's text, `isDefault = false`. -/
def handleTypeAliasDeclaration (name : String) (exportMod : Bool)
    (line column endLine : Nat) (typeText : String) (scope : Option String) :
    List ExtractedSymbol :=
  [{ name := name, kind := .typeKind, line := line, column := column
     endLine := some endLine, exported := exportMod, isDefault := false
     scope := scope, signature := some typeText }]

/-- `handleEnumDeclaration`: emit an `enum` symbol, `isDefault = false`. -/
def handleEnumDeclaration (name : String) (exportMod : Bool)
    (line column endLine : Nat) (scope : Option String) : List ExtractedSymbol :=
  [{ name := name, kind := .enumKind, line := line, column := column
     endLine := some endLine, exported := exportMod, isDefault := false
     scope := scope }]

/-- `handleVariableStatement`: one symbol per identifier declarator; kind
`const`/`variable` from the statement flags, overridden to `function` (with
a signature) when the initializer is an arrow function or function
expression; exportedness comes from the statement modifier. -/
def handleVariableStatement (exportMod isConst : Bool) (decls : List VarDecl)
    (scope : Option String) : List ExtractedSymbol :=
  decls.filterMap fun d =>
    if !d.nameIsIdentifier then none
    else
      let kind := if d.initIsFunction then SymbolKind.functionKind
        else if isConst then SymbolKind.constKind else SymbolKind.variableKind
      some { name := d.name, kind := kind, line := d.line, column := d.column
             endLine := some d.endLine, exported := exportMod, isDefault := false
             scope := scope
             signature := if d.initIsFunction then some d.fnSignature else none }

/-- `handleMethodDeclaration`: skip non-identifier names, else emit a
`method` symbol; methods are exported via their class, so
`exported = false` and `isDefault = false` unconditionally. -/
def handleMethodDeclaration (nameIsIdentifier : Bool) (name : String)
    (line column endLine : Nat) (signature : String) (scope : Option String) :
    List ExtractedSymbol :=
  if !nameIsIdentifier then []
  else
    [{ name := name, kind := .methodKind, line := line, column := column
       endLine := some endLine, exported := false, isDefault := false
       scope := scope, signature := some signature }]

/-- `handlePropertyDeclaration`: skip non-identifier names, else emit a
`property` symbol (no `endLine`), `exported = false`, `isDefault = false`,
signature from the declared type's text when present. -/
def handlePropertyDeclaration (nameIsIdentifier : Bool) (name : String)
    (line column : Nat) (typeText : Option String) (scope : Option String) :
    List ExtractedSymbol :=
  if !nameIsIdentifier then []
  else
    [{ name := name, kind := .propertyKind, line := line, column := column
       exported := false, isDefault := false, scope := scope
       signature := typeText }]

/-- `handleImportDeclaration`: skip non-string module specifiers; emit a
`*` row for side-effect imports, a default row for `importClause.name`, a
namespace row or one row per named element otherwise, with aliasing of
`propertyName as name` recorded in `localName`. -/
def handleImportDeclaration (d : ImportDeclData) : List ExtractedImport :=
  if !d.sourceIsStringLiteral then []
  else
    match d.clause with
    | none =>
        [{ importedName := "*", sourcePath := d.sourcePath, isDefault := false
           isNamespace := false, isType := false, line := d.line }]
    | some clause =>
        let fromDefault : List ExtractedImport :=
          match clause.defaultName with
          | some n =>
              [{ importedName := n, sourcePath := d.sourcePath, isDefault := true
                 isNamespace := false, isType := clause.isTypeOnly, line := d.line }]
          | none => []
        let fromBindings : List ExtractedImport :=
          match clause.namedBindings with
          | none => []
          | some (.namespaceImport n) =>
              [{ importedName := n, sourcePath := d.sourcePath, isDefault := false
                 isNamespace := true, isType := clause.isTypeOnly, line := d.line }]
          | some (.namedImports elems) =>
              elems.map fun e =>
                { importedName := e.propertyName.getD e.name
                  localName := if e.propertyName.isSome then some e.name else none
                  sourcePath := d.sourcePath, isDefault := false
                  isNamespace := false
                  isType := clause.isTypeOnly || e.isTypeOnly, line := d.line }
        fromDefault ++ fromBindings

/-- The handler dispatch of `visit`: which handler runs for a node and
what it appends to the `symbols` and `imports` accumulators.
`handleExportDeclaration` and `handleExportAssignment` deliberately record
nothing (re-exports reference existing symbols). -/
def handleNode (d : TsNodeData) (scope : Option String) :
    List ExtractedSymbol × List ExtractedImport :=
  match d with
  | .functionDecl name em dm l c e s =>
      (handleFunctionDeclaration name em dm l c e s scope, [])
  | .classDecl name em dm l c e => (handleClassDeclaration name em dm l c e scope, [])
  | .interfaceDecl name em l c e => (handleInterfaceDeclaration name em l c e scope, [])
  | .typeAliasDecl name em l c e tt =>
      (handleTypeAliasDeclaration name em l c e tt scope, [])
  | .enumDecl name em l c e => (handleEnumDeclaration name em l c e scope, [])
  | .variableStmt em ic ds => (handleVariableStatement em ic ds scope, [])
  | .methodDecl ni name l c e s => (handleMethodDeclaration ni name l c e s scope, [])
  | .propertyDecl ni name l c tt => (handlePropertyDeclaration ni name l c tt scope, [])
  | .importDecl idata => ([], handleImportDeclaration idata)
  | .exportDecl => ([], [])
  | .exportAssign => ([], [])
  | .otherNode => ([], [])

mutual
/-- A visited TypeScript AST node: its dispatch-relevant data, a flag
recording whether handling it makes the TypeScript compiler API throw
(the exception the per-node `try/catch` swallows), and its children. -/
inductive TsNode where
  | mk (data : TsNodeData) (malformed : Bool) (children : TsForest)
/-- A list of sibling AST nodes (mutual with `TsNode`). -/
inductive TsForest where
  | nil
  | cons (t : TsNode) (ts : TsForest)
end

mutual
/-- The recursive `visit` of `parseFile` on one node: the whole body runs
in a `try` whose `catch` skips the node, so a malformed node contributes
nothing (its children are behind the handler in the same `try`).  For a
class declaration the children are visited with the class name as scope
and the node returns early; every other node's children inherit
`parentScope`. -/
def visitTree (scope : Option String) :
    TsNode → List ExtractedSymbol × List ExtractedImport
  | .mk d malformed cs =>
    if malformed then ([], [])
    else
      let r := handleNode d scope
      match d with
      | .classDecl name _ _ _ _ _ =>
          let rc := visitForest name cs
          (r.1 ++ rc.1, r.2 ++ rc.2)
      | _ =>
          let rc := visitForest scope cs
          (r.1 ++ rc.1, r.2 ++ rc.2)
/-- `ts.forEachChild(node, child => visit(child, scope))`: visit siblings
left to right, concatenating what they push. -/
def visitForest (scope : Option String) :
    TsForest → List ExtractedSymbol × List ExtractedImport
  | .nil => ([], [])
  | .cons t ts =>
      let r1 := visitTree scope t
      let r2 := visitForest scope ts
      (r1.1 ++ r2.1, r1.2 ++ r2.2)
end

/-- `ParseResult`: symbols, imports, and the non-fatal error strings
(`undefined` when empty). -/
structure ParseResult where
  symbols : List ExtractedSymbol
  imports : List ExtractedImport
  errors : Option (List String) := none
deriving Repr, DecidableEq

/-- `parseFile` from the TypeScript extractor.  `ts.createSourceFile` is
the external TypeScript compiler; its outcome is the parameter `parsed`:
`Except.error e` models a thrown parse exception (caught by the outer
`try`, which records one error string and returns whatever was
accumulated, i.e. nothing), and `Except.ok root` models the produced
source-file node, which is then visited with no enclosing scope. -/
def parseFile (parsed : Except String TsNode) : ParseResult :=
  match parsed with
  | .error e => { symbols := [], imports := [], errors := some ["Parse error: " ++ e] }
  | .ok root =>
      let r := visitTree none root
      { symbols := r.1, imports := r.2, errors := none }

mutual
/-- The node with every malformed construct removed from its subtree, at
any nesting depth.  This is a specification device for stating the
resilience property, not a translation of source code. -/
def pruneTree : TsNode → TsNode
  | .mk d m cs => .mk d m (pruneForest cs)
/-- Drop every malformed sibling (with its whole subtree, which the
per-node `catch` never reaches) and prune the survivors. -/
def pruneForest : TsForest → TsForest
  | .nil => .nil
  | .cons (.mk d true cs) ts => pruneForest ts
  | .cons (.mk d false cs) ts => .cons (pruneTree (.mk d false cs)) (pruneForest ts)
end

/-!
Concrete fixtures used by the witness theorems: a constant similarity
kernel, a constant embedding model, and small solution rows and AST trees.
-/

def wSim : List ℚ → List ℚ → ℚ := fun _ _ => 1

def wSimZero : List ℚ → List ℚ → ℚ := fun _ _ => 0

def wEmb : String → List ℚ := fun _ => [1]

def wRow : Solution :=
  { id := "sol_exist", problem := "OAuth integration", problem_embedding := some [1] }

def wInput : StoreInput :=
  { problem := "OAuth with Google auth", solution := "use passport.js", scope := .global }

/-- A store input whose `supersedes` names an existing row, exercising the
insert path that validates and keeps a supersedes target. -/
def wInputSup : StoreInput :=
  { problem := "OAuth with Google auth", solution := "use passport.js"
    scope := .global, supersedes := some "sol_exist" }

def mergeUpdate (keep remove r : Solution) : Solution :=
  { r with
    uses := keep.uses + remove.uses
    successes := keep.successes + remove.successes
    partialSuccesses := keep.partialSuccesses + remove.partialSuccesses
    failures := keep.failures + remove.failures
    tags := jsSetDedup (keep.tags ++ remove.tags) }

def mA : Solution := { id := "sol_A", uses := 1, successes := 1, tags := ["x"] }

def mB : Solution := { id := "sol_B", uses := 2, failures := 1, tags := ["x", "y"] }

def mC : Solution := { id := "sol_C", uses := 4, tags := ["z"] }

def mDb : MergeDb := { solutions := [mA, mB, mC], usage_log := [] }

def wClassTree : TsNode :=
  .mk (.classDecl (some "Widget") true true 1 0 20)
    false
    (.cons (.mk (.methodDecl true "render" 2 2 5 "(): void") false .nil)
      (.cons (.mk (.propertyDecl true "state" 6 2 (some "string")) false .nil)
        .nil))

def wMethodSym : ExtractedSymbol :=
  { name := "render", kind := .methodKind, line := 2, column := 2
    endLine := some 5, exported := false, isDefault := false
    scope := some "Widget", signature := some "(): void" }

/-!
Theorems.  The claim theorems are interleaved with the helper lemmas they
build on; each claim theorem carries a doc comment naming its claim.
-/

/-! ### Helper lemmas -/

theorem dbGet_of_mem (db : List Solution) (r : Solution) (h : r ∈ db) :
    ∃ ex, dbGet db r.id = some ex ∧ ex.id = r.id := by
  have hs : (db.find? fun x => x.id == r.id).isSome := by
    rw [List.find?_isSome]
    exact ⟨r, h, by simp⟩
  obtain ⟨ex, hex⟩ := Option.isSome_iff_exists.mp hs
  refine ⟨ex, hex, ?_⟩
  have hp := List.find?_some hex
  simpa [beq_iff_eq] using hp

theorem searchSimilar_nil (sim : List ℚ → List ℚ → ℚ) (q : List ℚ) (limit : Nat)
    (ms : ℚ) (db : List Solution)
    (h : ∀ r ∈ db, ∀ e, r.problem_embedding = some e → sim q e < ms) :
    searchSimilarSolutions sim q limit ms db = [] := by
  unfold searchSimilarSolutions
  have hf : ((db.filterMap fun r =>
      r.problem_embedding.map fun e => SimilarHit.mk r.id (sim q e)).filter
        fun h => ms ≤ h.similarity) = [] := by
    rw [List.filter_eq_nil_iff]
    intro hit hhit
    rw [List.mem_filterMap] at hhit
    obtain ⟨r, hr, hmap⟩ := hhit
    rw [Option.map_eq_some'] at hmap
    obtain ⟨e, he, rfl⟩ := hmap
    have hlt := h r hr e he
    simp only [decide_eq_true_eq]
    exact not_le.mpr hlt
  rw [hf]
  simp

theorem searchSimilar_top (sim : List ℚ → List ℚ → ℚ) (q : List ℚ) (ms : ℚ)
    (db : List Solution)
    (h : ∃ r ∈ db, ∃ e, r.problem_embedding = some e ∧ ms ≤ sim q e) :
    ∃ hit, searchSimilarSolutions sim q 1 ms db = [hit] ∧
      ∃ r ∈ db, ∃ e, r.problem_embedding = some e ∧
        hit = SimilarHit.mk r.id (sim q e) ∧ ms ≤ sim q e := by
  obtain ⟨r, hr, e, he, hsim⟩ := h
  have hmem : SimilarHit.mk r.id (sim q e) ∈
      ((db.filterMap fun r =>
        r.problem_embedding.map fun e => SimilarHit.mk r.id (sim q e)).filter
          fun h => ms ≤ h.similarity) := by
    rw [List.mem_filter]
    constructor
    · rw [List.mem_filterMap]
      exact ⟨r, hr, by rw [he]; rfl⟩
    · simpa using hsim
  have hperm := List.mergeSort_perm
    ((db.filterMap fun r =>
      r.problem_embedding.map fun e => SimilarHit.mk r.id (sim q e)).filter
        fun h => ms ≤ h.similarity)
    (fun a b => b.similarity ≤ a.similarity)
  have hne : (((db.filterMap fun r =>
      r.problem_embedding.map fun e => SimilarHit.mk r.id (sim q e)).filter
        fun h => ms ≤ h.similarity).mergeSort
          fun a b => b.similarity ≤ a.similarity) ≠ [] := by
    intro hnil
    rw [hnil] at hperm
    have := hperm.mem_iff.mpr hmem
    simp at this
  obtain ⟨hd, tl, hcons⟩ := List.exists_cons_of_ne_nil hne
  have hhd : hd ∈ ((db.filterMap fun r =>
      r.problem_embedding.map fun e => SimilarHit.mk r.id (sim q e)).filter
        fun h => ms ≤ h.similarity) := by
    apply hperm.mem_iff.mp
    rw [hcons]
    exact List.mem_cons_self _ _
  rw [List.mem_filter] at hhd
  obtain ⟨hhd1, hhd2⟩ := hhd
  rw [List.mem_filterMap] at hhd1
  obtain ⟨r2, hr2, hmap2⟩ := hhd1
  rw [Option.map_eq_some'] at hmap2
  obtain ⟨e2, he2, hhe2⟩ := hmap2
  refine ⟨hd, ?_, r2, hr2, e2, he2, hhe2.symm, ?_⟩
  · unfold searchSimilarSolutions
    rw [hcons]
    rfl
  · have hms : ms ≤ hd.similarity := by simpa using hhd2
    rw [← hhe2] at hms
    exact hms

theorem calculateComplexity_bounds (input : StoreInput) :
    1 ≤ calculateComplexity input ∧ calculateComplexity input ≤ 10 := by
  rcases hcb : input.codeBlocks with _ | bs <;>
    rcases hp : input.prerequisites with _ | ps <;>
    rcases hf : input.filesAffected with _ | fs <;>
    simp only [calculateComplexity, hcb, hp, hf] <;>
    constructor <;> omega

/-- C1: when the problem embedding is within similarity 0.9 of some stored
solution's embedding, `matrixStore` reports status `duplicate` carrying the
existing record's id and the (3-decimal rounded) similarity, and the
solutions table is left unchanged. -/
theorem matrixStore_duplicate_no_insert (sim : List ℚ → List ℚ → ℚ)
    (emb : String → List ℚ) (newId : String) (repoId : Option String)
    (db : List Solution) (input : StoreInput)
    (h : ∃ r ∈ db, ∃ e, r.problem_embedding = some e ∧
      mkRat 9 10 ≤ sim (emb input.problem) e) :
    ∃ res, matrixStore sim emb newId repoId db input = .ok (res, db) ∧
      res.status = .duplicate ∧
      ∃ r ∈ db, ∃ e, r.problem_embedding = some e ∧
        mkRat 9 10 ≤ sim (emb input.problem) e ∧ res.id = r.id ∧
        res.similarity = some (jsRound3 (sim (emb input.problem) e)) := by
  obtain ⟨hit, hsearch, r, hr, e, he, hhit, hms⟩ :=
    searchSimilar_top sim (emb input.problem) (mkRat 9 10) db h
  obtain ⟨ex, hex, hexid⟩ := dbGet_of_mem db r hr
  rw [hhit] at hsearch
  have heq : matrixStore sim emb newId repoId db input = Except.ok
      ({ id := ex.id, status := .duplicate, problem := truncate100 ex.problem
         scope := input.scope, tags := input.tags.getD []
         similarity := some (jsRound3 (sim (emb input.problem) e))
         category := ex.category }, db) := by
    simp only [matrixStore, hsearch, hex]
  exact ⟨_, heq, rfl, r, hr, e, he, hms, hexid, rfl⟩

theorem matrixStore_duplicate_no_insert_witness :
    (∃ r ∈ [wRow], ∃ e, r.problem_embedding = some e ∧
      mkRat 9 10 ≤ wSim (wEmb wInput.problem) e) ∧
    (∃ res, matrixStore wSim wEmb "sol_new" none [wRow] wInput = .ok (res, [wRow]) ∧
      res.status = .duplicate ∧
      ∃ r ∈ [wRow], ∃ e, r.problem_embedding = some e ∧
        mkRat 9 10 ≤ wSim (wEmb wInput.problem) e ∧ res.id = r.id ∧
        res.similarity = some (jsRound3 (wSim (wEmb wInput.problem) e))) := by
  have hp : ∃ r ∈ [wRow], ∃ e, r.problem_embedding = some e ∧
      mkRat 9 10 ≤ wSim (wEmb wInput.problem) e :=
    ⟨wRow, List.mem_singleton_self _, [1], rfl, by decide⟩
  exact ⟨hp, matrixStore_duplicate_no_insert wSim wEmb "sol_new" none [wRow] wInput hp⟩

/-- C9: the near-duplicate check runs before the `supersedes` validation,
so a store whose problem matches an existing solution at similarity ≥ 0.9
returns status `duplicate` even when `supersedes` names a non-existent id;
no error is raised. -/
theorem duplicate_precedes_supersedes (sim : List ℚ → List ℚ → ℚ)
    (emb : String → List ℚ) (newId : String) (repoId : Option String)
    (db : List Solution) (input : StoreInput) (sid : String)
    (h : ∃ r ∈ db, ∃ e, r.problem_embedding = some e ∧
      mkRat 9 10 ≤ sim (emb input.problem) e)
    (hsup : input.supersedes = some sid) (hmiss : dbGet db sid = none) :
    ∃ res, matrixStore sim emb newId repoId db input = .ok (res, db) ∧
      res.status = .duplicate := by
  obtain ⟨hit, hsearch, r, hr, e, he, hhit, hms⟩ :=
    searchSimilar_top sim (emb input.problem) (mkRat 9 10) db h
  obtain ⟨ex, hex, hexid⟩ := dbGet_of_mem db r hr
  rw [hhit] at hsearch
  have heq : matrixStore sim emb newId repoId db input = Except.ok
      ({ id := ex.id, status := .duplicate, problem := truncate100 ex.problem
         scope := input.scope, tags := input.tags.getD []
         similarity := some (jsRound3 (sim (emb input.problem) e))
         category := ex.category }, db) := by
    simp only [matrixStore, hsearch, hex]
  exact ⟨_, heq, rfl⟩

theorem duplicate_precedes_supersedes_witness :
    ((∃ r ∈ [wRow], ∃ e, r.problem_embedding = some e ∧
        mkRat 9 10 ≤ wSim (wEmb wInput.problem) e) ∧
      ({ wInput with supersedes := some "sol_ghost" } : StoreInput).supersedes =
        some "sol_ghost" ∧
      dbGet [wRow] "sol_ghost" = none) ∧
    (∃ res, matrixStore wSim wEmb "sol_new" none [wRow]
        { wInput with supersedes := some "sol_ghost" } = .ok (res, [wRow]) ∧
      res.status = .duplicate) := by
  have hp : ∃ r ∈ [wRow], ∃ e, r.problem_embedding = some e ∧
      mkRat 9 10 ≤ wSim (wEmb wInput.problem) e :=
    ⟨wRow, List.mem_singleton_self _, [1], rfl, by decide⟩
  refine ⟨⟨hp, rfl, by decide⟩, ?_⟩
  exact duplicate_precedes_supersedes wSim wEmb "sol_new" none [wRow]
    { wInput with supersedes := some "sol_ghost" } "sol_ghost" hp rfl (by decide)

/-- C7: when no stored solution is similar enough and `supersedes` names an
id that does not resolve, `matrixStore` throws (`Cannot supersede
non-existent solution`) and, the throw happening before the INSERT, no row
is added. -/
theorem matrixStore_supersedes_missing_error (sim : List ℚ → List ℚ → ℚ)
    (emb : String → List ℚ) (newId : String) (repoId : Option String)
    (db : List Solution) (input : StoreInput) (sid : String)
    (hnodup : ∀ r ∈ db, ∀ e, r.problem_embedding = some e →
      sim (emb input.problem) e < mkRat 9 10)
    (hsup : input.supersedes = some sid) (hsid : sid ≠ "")
    (hmiss : dbGet db sid = none) :
    matrixStore sim emb newId repoId db input =
      .error ("Cannot supersede non-existent solution: " ++ sid) := by
  have hsearch := searchSimilar_nil sim (emb input.problem) 1 (mkRat 9 10) db hnodup
  have hsid' : (sid == "") = false := by simpa using hsid
  simp only [matrixStore, hsearch, matrixStoreInsert, hsup, hsid', hmiss,
    Option.isSome_none, Bool.false_eq_true, if_false]

theorem matrixStore_supersedes_missing_error_witness :
    ((∀ r ∈ [wRow], ∀ e, r.problem_embedding = some e →
        wSimZero (wEmb wInput.problem) e < mkRat 9 10) ∧
      ({ wInput with supersedes := some "sol_ghost" } : StoreInput).supersedes =
        some "sol_ghost" ∧ ("sol_ghost" : String) ≠ "" ∧
      dbGet [wRow] "sol_ghost" = none) ∧
    matrixStore wSimZero wEmb "sol_new" none [wRow]
        { wInput with supersedes := some "sol_ghost" } =
      .error ("Cannot supersede non-existent solution: " ++ "sol_ghost") := by
  refine ⟨⟨by decide, rfl, by decide, by decide⟩, ?_⟩
  exact matrixStore_supersedes_missing_error wSimZero wEmb "sol_new" none [wRow]
    { wInput with supersedes := some "sol_ghost" } "sol_ghost" (by decide) rfl
    (by decide) (by decide)

/-- C5: when `complexity` is omitted and the call does not hit a
near-duplicate, every successful return of `matrixStore` — whatever the
`supersedes` field holds — reports and persists exactly
`calculateComplexity` of the input, an integer that always lies in
`[1, 10]`. -/
theorem matrixStore_derived_complexity (sim : List ℚ → List ℚ → ℚ)
    (emb : String → List ℚ) (newId : String) (repoId : Option String)
    (db : List Solution) (input : StoreInput)
    (hnodup : ∀ r ∈ db, ∀ e, r.problem_embedding = some e →
      sim (emb input.problem) e < mkRat 9 10)
    (hcx : input.complexity = none) :
    (1 ≤ calculateComplexity input ∧ calculateComplexity input ≤ 10) ∧
    ∀ res newDb, matrixStore sim emb newId repoId db input = .ok (res, newDb) →
      res.complexity = some (calculateComplexity input) ∧
      ∃ row, newDb = db ++ [row] ∧ row.complexity = calculateComplexity input := by
  refine ⟨calculateComplexity_bounds input, ?_⟩
  intro res newDb hok
  have hsearch := searchSimilar_nil sim (emb input.problem) 1 (mkRat 9 10) db hnodup
  have hms : matrixStore sim emb newId repoId db input =
      matrixStoreInsert (emb input.problem) newId repoId db input := by
    simp only [matrixStore, hsearch]
  rw [hms] at hok
  rcases hsup : input.supersedes with _ | sid
  · simp only [matrixStoreInsert, hcx, hsup, Option.getD_none] at hok
    rw [Except.ok.injEq, Prod.mk.injEq] at hok
    obtain ⟨hres, hdb⟩ := hok
    rw [← hres]
    exact ⟨rfl, _, hdb.symm, rfl⟩
  · simp only [matrixStoreInsert, hcx, hsup, Option.getD_none] at hok
    by_cases hsid : (sid == "") = true
    · rw [if_pos hsid, Except.ok.injEq, Prod.mk.injEq] at hok
      obtain ⟨hres, hdb⟩ := hok
      rw [← hres]
      exact ⟨rfl, _, hdb.symm, rfl⟩
    · rw [if_neg hsid] at hok
      by_cases hex : (dbGet db sid).isSome
      · rw [if_pos hex, Except.ok.injEq, Prod.mk.injEq] at hok
        obtain ⟨hres, hdb⟩ := hok
        rw [← hres]
        exact ⟨rfl, _, hdb.symm, rfl⟩
      · rw [if_neg hex] at hok
        exact absurd hok (by simp)

theorem matrixStore_derived_complexity_witness :
    ((∀ r ∈ [wRow], ∀ e, r.problem_embedding = some e →
        wSimZero (wEmb wInputSup.problem) e < mkRat 9 10) ∧
      wInputSup.complexity = none) ∧
    ((1 ≤ calculateComplexity wInputSup ∧ calculateComplexity wInputSup ≤ 10) ∧
      ∀ res newDb, matrixStore wSimZero wEmb "sol_new" none [wRow] wInputSup =
          .ok (res, newDb) →
        res.complexity = some (calculateComplexity wInputSup) ∧
        ∃ row, newDb = [wRow] ++ [row] ∧
          row.complexity = calculateComplexity wInputSup) := by
  refine ⟨⟨by decide, rfl⟩, ?_⟩
  exact matrixStore_derived_complexity wSimZero wEmb "sol_new" none [wRow] wInputSup
    (by decide) rfl

theorem diff_foldl (indexed : List (String × RepoFileRow)) (scanned : List ScannedFile)
    (acc : List ScannedFile × List ScannedFile × List String) :
    scanned.foldl (fun acc file =>
      match mapGet indexed file.path with
      | none => (acc.1 ++ [file], acc.2.1, acc.2.2 ++ [file.path])
      | some indexedRow =>
          if indexedRow.mtime < file.mtime then
            (acc.1, acc.2.1 ++ [file], acc.2.2 ++ [file.path])
          else
            (acc.1, acc.2.1, acc.2.2 ++ [file.path])) acc =
    (acc.1 ++ scanned.filter fun f => (mapGet indexed f.path).isNone,
     acc.2.1 ++ scanned.filter fun f =>
       match mapGet indexed f.path with
       | some r => decide (r.mtime < f.mtime)
       | none => false,
     acc.2.2 ++ scanned.map ScannedFile.path) := by
  induction scanned generalizing acc with
  | nil => simp
  | cons f fs ih =>
    rw [List.foldl_cons, ih]
    cases hm : mapGet indexed f.path with
    | none => simp [hm, List.filter_cons, List.append_assoc]
    | some ix =>
      by_cases hlt : ix.mtime < f.mtime <;>
        simp [hm, hlt, List.filter_cons, List.append_assoc]

theorem computeDiff_eq (scanned : List ScannedFile)
    (indexed : List (String × RepoFileRow)) :
    computeDiff scanned indexed =
      { added := scanned.filter fun f => (mapGet indexed f.path).isNone
        modified := scanned.filter fun f =>
          match mapGet indexed f.path with
          | some r => decide (r.mtime < f.mtime)
          | none => false
        deleted := (indexed.filter fun kv =>
          !((scanned.map ScannedFile.path).contains kv.1)).map fun kv => kv.1 } := by
  simp only [computeDiff, diff_foldl indexed scanned ([], [], [])]
  simp

/-- C2: `computeDiff` classifies a scanned file as added exactly when no
indexed row exists at its path, as modified exactly when an indexed row
exists with a strictly smaller mtime, and reports an indexed path as
deleted exactly when it is absent from the scan; a scanned file with an
up-to-date indexed row therefore appears in neither list, and an unchanged
tree yields three empty lists. -/
theorem computeDiff_classification (scanned : List ScannedFile)
    (indexed : List (String × RepoFileRow)) :
    (∀ f, f ∈ (computeDiff scanned indexed).added ↔
        f ∈ scanned ∧ mapGet indexed f.path = none) ∧
    (∀ f, f ∈ (computeDiff scanned indexed).modified ↔
        f ∈ scanned ∧ ∃ r, mapGet indexed f.path = some r ∧ r.mtime < f.mtime) ∧
    (∀ p, p ∈ (computeDiff scanned indexed).deleted ↔
        p ∈ indexed.map Prod.fst ∧ ¬ p ∈ scanned.map ScannedFile.path) := by
  rw [computeDiff_eq]
  refine ⟨?_, ?_, ?_⟩
  · intro f
    simp [List.mem_filter, Option.isNone_iff_eq_none]
  · intro f
    rw [List.mem_filter]
    constructor
    · rintro ⟨hf, hm⟩
      cases h : mapGet indexed f.path with
      | none => rw [h] at hm; simp at hm
      | some r =>
          rw [h] at hm
          simp only [decide_eq_true_eq] at hm
          exact ⟨hf, r, rfl, hm⟩
    · rintro ⟨hf, r, hr, hlt⟩
      refine ⟨hf, ?_⟩
      rw [hr]
      simpa using hlt
  · intro p
    simp only [List.mem_map, List.mem_filter]
    constructor
    · rintro ⟨kv, ⟨hkv, hnc⟩, rfl⟩
      refine ⟨⟨kv, hkv, rfl⟩, ?_⟩
      rintro ⟨a, ha, hpath⟩
      rw [Bool.not_eq_true'] at hnc
      have hmm : kv.1 ∈ scanned.map ScannedFile.path :=
        List.mem_map.mpr ⟨a, ha, hpath⟩
      rw [← List.elem_iff] at hmm
      exact absurd hmm (by simpa using hnc)
    · rintro ⟨⟨kv, hkv, rfl⟩, hnmem⟩
      refine ⟨kv, ⟨hkv, ?_⟩, rfl⟩
      rw [Bool.not_eq_true']
      rw [← Bool.not_eq_true]
      intro hc
      obtain ⟨a, ha, hpath⟩ : ∃ a ∈ scanned, a.path = kv.1 := by simpa using hc
      exact hnmem ⟨a, ha, hpath⟩

theorem jsSetDedup_foldl_mem (l : List String)
    (acc : List String) (x : String) :
    x ∈ l.foldl (fun acc y => if acc.contains y then acc else acc ++ [y]) acc ↔
      x ∈ acc ∨ x ∈ l := by
  induction l generalizing acc with
  | nil => simp
  | cons y ys ih =>
    rw [List.foldl_cons]
    by_cases hc : acc.contains y
    · rw [if_pos hc, ih]
      have hy : y ∈ acc := List.elem_iff.mp hc
      constructor
      · rintro (h | h)
        · exact Or.inl h
        · exact Or.inr (List.mem_cons_of_mem _ h)
      · rintro (h | h)
        · exact Or.inl h
        · rcases List.mem_cons.mp h with rfl | h
          · exact Or.inl hy
          · exact Or.inr h
    · rw [if_neg hc, ih]
      simp only [List.mem_append, List.mem_singleton, List.mem_cons]
      tauto

theorem jsSetDedup_mem (l : List String) (x : String) :
    x ∈ jsSetDedup l ↔ x ∈ l := by
  unfold jsSetDedup
  rw [jsSetDedup_foldl_mem]
  simp

theorem mergeUpdate_id (keep remove r : Solution) :
    (mergeUpdate keep remove r).id = r.id := rfl

theorem executeMerge_solutions_eq (db : MergeDb) (keep remove : Solution) :
    (executeMerge db keep remove).solutions =
      ((db.solutions.map fun r =>
        if r.id == keep.id then mergeUpdate keep remove r else r).filter
          fun r => !(r.id == remove.id)) := by
  simp only [executeMerge, mergeUpdate]

theorem merge_find_keep (keep remove : Solution) (hne : keep.id ≠ remove.id) :
    ∀ sols : List Solution, keep ∈ sols → (sols.map Solution.id).Nodup →
      dbGet ((sols.map fun r =>
          if r.id == keep.id then mergeUpdate keep remove r else r).filter
            fun r => !(r.id == remove.id)) keep.id =
        some (mergeUpdate keep remove keep) := by
  intro sols
  induction sols with
  | nil => intro h; simp at h
  | cons s ss ih =>
    intro hmem hnodup
    rw [List.map_cons, List.nodup_cons] at hnodup
    by_cases hs : s.id = keep.id
    · have hk : s = keep := by
        rcases List.mem_cons.mp hmem with rfl | htl
        · rfl
        · exfalso
          exact hnodup.1 (hs ▸ List.mem_map_of_mem Solution.id htl)
      subst hk
      rw [List.map_cons, if_pos (by simp), List.filter_cons,
        if_pos (by rw [mergeUpdate_id]; simpa using hne)]
      unfold dbGet
      rw [List.find?_cons_of_pos _ (by rw [mergeUpdate_id]; simp)]
    · have hk : keep ∈ ss := by
        rcases List.mem_cons.mp hmem with rfl | htl
        · exact absurd rfl hs
        · exact htl
      rw [List.map_cons, if_neg (by simpa using hs), List.filter_cons]
      by_cases hr : (!(s.id == remove.id)) = true
      · rw [if_pos hr]
        unfold dbGet
        rw [List.find?_cons_of_neg _ (by simpa using hs)]
        exact ih hk hnodup.2
      · rw [if_neg hr]
        exact ih hk hnodup.2

theorem merge_find_remove_none (keep remove : Solution) (sols : List Solution) :
    dbGet ((sols.map fun r =>
        if r.id == keep.id then mergeUpdate keep remove r else r).filter
          fun r => !(r.id == remove.id)) remove.id = none := by
  unfold dbGet
  rw [List.find?_eq_none]
  intro r hrmem
  have hpred := List.of_mem_filter hrmem
  simp only [Bool.not_eq_true'] at hpred
  simp [hpred]

/-- C3: merging `remove` into `keep` sums the four outcome counters onto
the kept row, makes its tag list the set union of both tag lists, and
removes the row with `remove`'s id from the solutions table. -/
theorem executeMerge_combines_and_deletes (db : MergeDb) (keep remove : Solution)
    (hk : keep ∈ db.solutions) (hr : remove ∈ db.solutions)
    (hnodup : (db.solutions.map Solution.id).Nodup) (hne : keep.id ≠ remove.id) :
    ∃ k, dbGet (executeMerge db keep remove).solutions keep.id = some k ∧
      k.uses = keep.uses + remove.uses ∧
      k.successes = keep.successes + remove.successes ∧
      k.partialSuccesses = keep.partialSuccesses + remove.partialSuccesses ∧
      k.failures = keep.failures + remove.failures ∧
      (∀ t, t ∈ k.tags ↔ t ∈ keep.tags ∨ t ∈ remove.tags) ∧
      dbGet (executeMerge db keep remove).solutions remove.id = none := by
  rw [executeMerge_solutions_eq]
  refine ⟨mergeUpdate keep remove keep,
    merge_find_keep keep remove hne db.solutions hk hnodup,
    rfl, rfl, rfl, rfl, ?_, merge_find_remove_none keep remove db.solutions⟩
  intro t
  show t ∈ jsSetDedup (keep.tags ++ remove.tags) ↔ _
  rw [jsSetDedup_mem]
  exact List.mem_append

theorem executeMerge_combines_and_deletes_witness :
    (mA ∈ mDb.solutions ∧ mB ∈ mDb.solutions ∧
      (mDb.solutions.map Solution.id).Nodup ∧ mA.id ≠ mB.id) ∧
    (∃ k, dbGet (executeMerge mDb mA mB).solutions mA.id = some k ∧
      k.uses = mA.uses + mB.uses ∧
      k.successes = mA.successes + mB.successes ∧
      k.partialSuccesses = mA.partialSuccesses + mB.partialSuccesses ∧
      k.failures = mA.failures + mB.failures ∧
      (∀ t, t ∈ k.tags ↔ t ∈ mA.tags ∨ t ∈ mB.tags) ∧
      dbGet (executeMerge mDb mA mB).solutions mB.id = none) := by
  refine ⟨⟨by decide, by decide, by decide, by decide⟩, ?_⟩
  exact executeMerge_combines_and_deletes mDb mA mB (by decide) (by decide)
    (by decide) (by decide)

/-- C4 evidence: `executeMerge` has no error channel and performs no
existence check, so re-invoking it with a `remove` row whose id was
already deleted by a prior merge silently re-applies that row's counters:
after merging `mB` into `mA`, merging `mB` into `mC` still adds `mB`'s 2
uses to `mC` (4 becomes 6) instead of failing with NotFound and leaving
`mC` unchanged. -/
theorem executeMerge_rerun_mutates :
    dbGet (executeMerge mDb mA mB).solutions "sol_B" = none ∧
    (dbGet (executeMerge (executeMerge mDb mA mB) mC mB).solutions "sol_C").map
      Solution.uses = some 6 := by decide

theorem candFn_eq_some (sim : List ℚ → List ℚ → ℚ) (threshold : ℚ)
    (p : Solution × Solution) (c : MergeCandidate) :
    (match p.1.problem_embedding, p.2.problem_embedding with
      | some embA, some embB =>
          if embA.length ≠ EMBEDDING_DIM ∨ embB.length ≠ EMBEDDING_DIM then none
          else
            if threshold ≤ sim embA embB then
              some (MergeCandidate.mk p.1 p.2 (sim embA embB))
            else none
      | _, _ => none) = some c ↔
    ∃ ea eb, p.1.problem_embedding = some ea ∧ p.2.problem_embedding = some eb ∧
      ea.length = EMBEDDING_DIM ∧ eb.length = EMBEDDING_DIM ∧
      threshold ≤ sim ea eb ∧ c = MergeCandidate.mk p.1 p.2 (sim ea eb) := by
  rcases ha : p.1.problem_embedding with _ | ea <;>
    rcases hb : p.2.problem_embedding with _ | eb
  · simp [ha]
  · simp [ha]
  · simp [ha, hb]
  · simp only [ha, hb]
    by_cases hdim : ea.length ≠ EMBEDDING_DIM ∨ eb.length ≠ EMBEDDING_DIM
    · rw [if_pos hdim]
      constructor
      · intro h
        simp at h
      · rintro ⟨ea', eb', hea, heb, h1, h2, _, _⟩
        injection hea with hea'
        injection heb with heb'
        subst hea'
        subst heb'
        rcases hdim with h | h
        · exact absurd h1 h
        · exact absurd h2 h
    · rw [if_neg hdim]
      push_neg at hdim
      by_cases hth : threshold ≤ sim ea eb
      · rw [if_pos hth]
        constructor
        · intro h
          injection h with h
          exact ⟨ea, eb, rfl, rfl, hdim.1, hdim.2, hth, h.symm⟩
        · rintro ⟨ea', eb', hea, heb, _, _, _, hc⟩
          injection hea with hea'
          injection heb with heb'
          subst hea'
          subst heb'
          rw [hc]
      · rw [if_neg hth]
        constructor
        · intro h
          simp at h
        · rintro ⟨ea', eb', hea, heb, _, _, hth', _⟩
          injection hea with hea'
          injection heb with heb'
          subst hea'
          subst heb'
          exact absurd hth' hth

/-- C6: the merge candidate scan returns exactly the pairs of distinct
stored solutions (every unordered pair appears once, as `(i, j)` with
`i < j` in table order) whose embeddings both decode to length
`EMBEDDING_DIM = 384` and whose similarity reaches the threshold, sorted
by descending similarity; a pair with a wrong-dimension (or undecodable)
embedding is merely absent, leaving the remaining pairs intact. -/
theorem findCandidates_pairs_sorted (sim : List ℚ → List ℚ → ℚ)
    (sols : List Solution) (threshold : ℚ) :
    (∀ c, c ∈ findCandidates sim sols threshold ↔
      ∃ p ∈ allPairs sols, ∃ ea eb,
        p.1.problem_embedding = some ea ∧ p.2.problem_embedding = some eb ∧
        ea.length = EMBEDDING_DIM ∧ eb.length = EMBEDDING_DIM ∧
        threshold ≤ sim ea eb ∧ c = MergeCandidate.mk p.1 p.2 (sim ea eb)) ∧
    (findCandidates sim sols threshold).Pairwise
      fun x y => y.similarity ≤ x.similarity := by
  constructor
  · intro c
    rw [show findCandidates sim sols threshold =
        ((allPairs sols).filterMap fun p =>
          match p.1.problem_embedding, p.2.problem_embedding with
          | some embA, some embB =>
              if embA.length ≠ EMBEDDING_DIM ∨ embB.length ≠ EMBEDDING_DIM then none
              else
                if threshold ≤ sim embA embB then
                  some (MergeCandidate.mk p.1 p.2 (sim embA embB))
                else none
          | _, _ => none).mergeSort fun a b => b.similarity ≤ a.similarity
      from by simp only [findCandidates]]
    rw [(List.mergeSort_perm _ _).mem_iff, List.mem_filterMap]
    constructor
    · rintro ⟨p, hp, hfp⟩
      exact ⟨p, hp, (candFn_eq_some sim threshold p c).mp hfp⟩
    · rintro ⟨p, hp, hrest⟩
      exact ⟨p, hp, (candFn_eq_some sim threshold p c).mpr hrest⟩
  · have htrans : ∀ (a b c : MergeCandidate),
        (fun x y => decide (y.similarity ≤ x.similarity)) a b = true →
        (fun x y => decide (y.similarity ≤ x.similarity)) b c = true →
        (fun x y => decide (y.similarity ≤ x.similarity)) a c = true := by
      intro a b c hab hbc
      simp only [decide_eq_true_eq] at hab hbc ⊢
      exact le_trans hbc hab
    have htotal : ∀ (a b : MergeCandidate),
        ((fun x y => decide (y.similarity ≤ x.similarity)) a b ||
          (fun x y => decide (y.similarity ≤ x.similarity)) b a) = true := by
      intro a b
      simp only [Bool.or_eq_true, decide_eq_true_eq]
      exact le_total b.similarity a.similarity
    have hs := List.sorted_mergeSort htrans htotal
      ((allPairs sols).filterMap fun p =>
        match p.1.problem_embedding, p.2.problem_embedding with
        | some embA, some embB =>
            if embA.length ≠ EMBEDDING_DIM ∨ embB.length ≠ EMBEDDING_DIM then none
            else
              if threshold ≤ sim embA embB then
                some (MergeCandidate.mk p.1 p.2 (sim embA embB))
              else none
        | _, _ => none)
    have hfc : findCandidates sim sols threshold =
        ((allPairs sols).filterMap fun p =>
          match p.1.problem_embedding, p.2.problem_embedding with
          | some embA, some embB =>
              if embA.length ≠ EMBEDDING_DIM ∨ embB.length ≠ EMBEDDING_DIM then none
              else
                if threshold ≤ sim embA embB then
                  some (MergeCandidate.mk p.1 p.2 (sim embA embB))
                else none
          | _, _ => none).mergeSort fun a b => b.similarity ≤ a.similarity := by
      simp only [findCandidates]
    rw [hfc]
    exact hs.imp fun h => by simpa using h

theorem visitTree_malformed (scope : Option String) (d : TsNodeData)
    (cs : TsForest) : visitTree scope (.mk d true cs) = ([], []) := by
  simp [visitTree]

mutual
theorem visitTree_prune : ∀ (sc : Option String) (t : TsNode),
    visitTree sc (pruneTree t) = visitTree sc t
  | sc, .mk d m cs => by
    by_cases hm : m
    · subst hm
      rw [show pruneTree (.mk d true cs) = .mk d true (pruneForest cs) from rfl]
      rw [visitTree_malformed, visitTree_malformed]
    · have hm' : m = false := by simpa using hm
      subst hm'
      rw [show pruneTree (.mk d false cs) = .mk d false (pruneForest cs) from rfl]
      rcases d <;>
        simp only [visitTree, Bool.false_eq_true, if_false,
          visitForest_prune _ cs]
theorem visitForest_prune : ∀ (sc : Option String) (ts : TsForest),
    visitForest sc (pruneForest ts) = visitForest sc ts
  | sc, .nil => rfl
  | sc, .cons (.mk d true cs) ts => by
    rw [show pruneForest (.cons (.mk d true cs) ts) = pruneForest ts from rfl]
    rw [visitForest_prune sc ts]
    show _ = ((visitTree sc (.mk d true cs)).1 ++ (visitForest sc ts).1,
      (visitTree sc (.mk d true cs)).2 ++ (visitForest sc ts).2)
    rw [visitTree_malformed]
    simp
  | sc, .cons (.mk d false cs) ts => by
    rw [show pruneForest (.cons (.mk d false cs) ts) =
      .cons (pruneTree (.mk d false cs)) (pruneForest ts) from rfl]
    show ((visitTree sc (pruneTree (.mk d false cs))).1 ++
        (visitForest sc (pruneForest ts)).1,
      (visitTree sc (pruneTree (.mk d false cs))).2 ++
        (visitForest sc (pruneForest ts)).2) =
      ((visitTree sc (.mk d false cs)).1 ++ (visitForest sc ts).1,
        (visitTree sc (.mk d false cs)).2 ++ (visitForest sc ts).2)
    rw [visitTree_prune sc (.mk d false cs), visitForest_prune sc ts]
end

/-- C8: `parseFile` always returns a `ParseResult`: a file-level parse
exception yields the empty result with one recorded error string, and the
result on any source tree is identical to the result on the tree with
every malformed construct (and its subtree, which the per-node `catch`
skips) removed, at any nesting depth — so no malformed construct anywhere
in the file affects the symbols and imports extracted from the remaining
well-formed constructs. -/
theorem parseFile_skips_malformed_node (root : TsNode) :
    parseFile (.ok root) = parseFile (.ok (pruneTree root)) ∧
    ∀ e, parseFile (.error e) =
      { symbols := [], imports := [], errors := some ["Parse error: " ++ e] } := by
  constructor
  · simp only [parseFile, visitTree_prune]
  · intro e
    rfl

theorem mem_handleNode_method_property (d : TsNodeData) (sc : Option String)
    (s : ExtractedSymbol) (hs : s ∈ (handleNode d sc).1)
    (hk : s.kind = .methodKind ∨ s.kind = .propertyKind) :
    s.exported = false ∧ s.isDefault = false := by
  rcases d with
      ⟨name, em, dm, l, c, e, sg⟩ | ⟨name, em, dm, l, c, e⟩ | ⟨name, em, l, c, e⟩ |
      ⟨name, em, l, c, e, tt⟩ | ⟨name, em, l, c, e⟩ | ⟨em, ic, ds⟩ |
      ⟨ni, name, l, c, e, sg⟩ | ⟨ni, name, l, c, tt⟩ | idata | _ | _ | _
  · rcases name with _ | n
    · simp [handleNode, handleFunctionDeclaration] at hs
    · simp only [handleNode, handleFunctionDeclaration, List.mem_singleton] at hs
      subst hs
      simp at hk
  · rcases name with _ | n
    · simp [handleNode, handleClassDeclaration] at hs
    · simp only [handleNode, handleClassDeclaration, List.mem_singleton] at hs
      subst hs
      simp at hk
  · simp only [handleNode, handleInterfaceDeclaration, List.mem_singleton] at hs
    subst hs
    simp at hk
  · simp only [handleNode, handleTypeAliasDeclaration, List.mem_singleton] at hs
    subst hs
    simp at hk
  · simp only [handleNode, handleEnumDeclaration, List.mem_singleton] at hs
    subst hs
    simp at hk
  · simp only [handleNode, handleVariableStatement, List.mem_filterMap] at hs
    obtain ⟨vd, _, hvd⟩ := hs
    by_cases hni : (!vd.nameIsIdentifier) = true
    · rw [if_pos hni] at hvd
      simp at hvd
    · rw [if_neg hni] at hvd
      injection hvd with hvd
      subst hvd
      rcases hk with hk | hk <;>
        · by_cases hif : vd.initIsFunction <;> by_cases hic : ic <;>
            simp [hif, hic] at hk
  · by_cases hni : (!ni) = true
    · simp [handleNode, handleMethodDeclaration, hni] at hs
    · simp only [handleNode, handleMethodDeclaration, if_neg hni,
        List.mem_singleton] at hs
      subst hs
      exact ⟨rfl, rfl⟩
  · by_cases hni : (!ni) = true
    · simp [handleNode, handlePropertyDeclaration, hni] at hs
    · simp only [handleNode, handlePropertyDeclaration, if_neg hni,
        List.mem_singleton] at hs
      subst hs
      exact ⟨rfl, rfl⟩
  · simp [handleNode] at hs
  · simp [handleNode] at hs
  · simp [handleNode] at hs
  · simp [handleNode] at hs

mutual
theorem mem_visitTree_of_handler :
    ∀ (sc : Option String) (t : TsNode) (s : ExtractedSymbol),
      s ∈ (visitTree sc t).1 → ∃ d sc2, s ∈ (handleNode d sc2).1
  | sc, .mk d m cs, s => by
    intro hs
    simp only [visitTree] at hs
    by_cases hm : m
    · rw [if_pos hm] at hs
      simp at hs
    · rw [if_neg hm] at hs
      rcases d <;>
        · simp only [List.mem_append] at hs
          rcases hs with h | h
          · exact ⟨_, _, h⟩
          · exact mem_visitForest_of_handler _ cs s h

theorem mem_visitForest_of_handler :
    ∀ (sc : Option String) (ts : TsForest) (s : ExtractedSymbol),
      s ∈ (visitForest sc ts).1 → ∃ d sc2, s ∈ (handleNode d sc2).1
  | sc, .nil, s => by
    intro hs
    simp [visitForest] at hs
  | sc, .cons t ts, s => by
    intro hs
    simp only [visitForest, List.mem_append] at hs
    rcases hs with h | h
    · exact mem_visitTree_of_handler sc t s h
    · exact mem_visitForest_of_handler sc ts s h
end

/-- C10: every symbol the visitor emits with kind `method` or `property`
has `exported = false` and `isDefault = false`, whatever the enclosing
class's modifiers: only the handlers for those kinds hard-code the flags,
and no other handler emits those kinds. -/
theorem method_property_not_exported (parsed : Except String TsNode)
    (s : ExtractedSymbol) (hs : s ∈ (parseFile parsed).symbols)
    (hk : s.kind = .methodKind ∨ s.kind = .propertyKind) :
    s.exported = false ∧ s.isDefault = false := by
  rcases parsed with e | root
  · simp [parseFile] at hs
  · have hmem : s ∈ (visitTree none root).1 := hs
    obtain ⟨d, sc2, hd⟩ := mem_visitTree_of_handler none root s hmem
    exact mem_handleNode_method_property d sc2 s hd hk

theorem method_property_not_exported_witness :
    (wMethodSym ∈ (parseFile (.ok wClassTree)).symbols ∧
      (wMethodSym.kind = .methodKind ∨ wMethodSym.kind = .propertyKind)) ∧
    (wMethodSym.exported = false ∧ wMethodSym.isDefault = false) := by
  have hmem : wMethodSym ∈ (parseFile (.ok wClassTree)).symbols := by decide
  have hk : wMethodSym.kind = .methodKind ∨ wMethodSym.kind = .propertyKind := by decide
  exact ⟨⟨hmem, hk⟩, method_property_not_exported (.ok wClassTree) wMethodSym hmem hk⟩
